import Mathlib

/-!
Shallow embedding of the `transcriber` repository's segmentation,
retry, concurrency-ordering and orchestration logic, with theorems
checking the natural-language specification's claims against it.

Conventions of the embedding:
* Audio positions are modelled in integral milliseconds (`Nat`), exactly as
  pydub represents them (`len(audio)` is an `int` of milliseconds, silence
  ranges are pairs of `int` milliseconds).
* Values the Python code computes as seconds via `x / 1000.0` are modelled
  exactly in `ℚ`; every such float is an integer number of milliseconds
  divided by 1000, which is exact in binary floating point for realistic
  audio lengths, so `ℚ` is a faithful model.
* File-system effects are modelled by the path strings the code constructs;
  the number of `_save_segment` export calls is returned alongside the
  segment list where a claim depends on it.
-/

namespace Transcriber

/-- Mirrors `config.AudioSegment` (dataclass): segment id, start/end offsets
in seconds, file path, transcript (initially empty). -/
structure AudioSegment where
  segment_id : Nat
  start_time : ℚ
  end_time : ℚ
  file_path : String
  transcription : String := ""
  deriving Repr, DecidableEq

instance : Inhabited AudioSegment := ⟨⟨0, 0, 0, "", ""⟩⟩

/-- Seconds value of a millisecond count, mirroring the code's `x / 1000.0`. -/
def msec (n : Nat) : ℚ := (n : ℚ) / 1000

/-- Path of the file written by `AudioProcessor._save_segment` for segment
`sid`: `self.temp_dir / f"segment_{segment_id}.mp3"`. -/
def segPath (tempDir : String) (sid : Nat) : String :=
  tempDir ++ "segment_" ++ toString sid ++ ".mp3"

/-- Mirrors `AudioProcessor._split_by_time`: cut every `maxD` seconds, the
final segment possibly shorter.  `range(0, total, step)` enumerates
`⌈total/step⌉` start offsets; element `i` is segment
`[i*step, min((i+1)*step, total)]`. -/
def splitByTime (tempDir : String) (totalMs maxD : Nat) : List AudioSegment :=
  let step := maxD * 1000
  let n := (totalMs + step - 1) / step
  (List.range n).map fun i =>
    { segment_id := i
      start_time := msec (i * step)
      end_time := msec (min ((i + 1) * step) totalMs)
      file_path := segPath tempDir i }

/-- Loop body of `AudioProcessor._split_by_silence_fast`: walk the detected
silence ranges keeping `cur` (ms position after the last cut) and the next
segment id; cut at a silence start whose preceding span reaches `maxD`
seconds, resume from the silence end; emit a trailing segment if material
remains. -/
def splitSilenceLoop (tempDir : String) (totalMs maxD : Nat) :
    List (Nat × Nat) → Nat → Nat → List AudioSegment
  | [], cur, sid =>
    if cur < totalMs then
      [{ segment_id := sid, start_time := msec cur, end_time := msec totalMs,
         file_path := segPath tempDir sid }]
    else []
  | (ss, se) :: rest, cur, sid =>
    if (maxD : ℚ) ≤ ((ss : ℚ) - (cur : ℚ)) / 1000 then
      { segment_id := sid, start_time := msec cur, end_time := msec ss,
        file_path := segPath tempDir sid }
        :: splitSilenceLoop tempDir totalMs maxD rest se (sid + 1)
    else
      splitSilenceLoop tempDir totalMs maxD rest cur sid

/-- Mirrors `AudioProcessor._split_by_silence_fast`.  The outcome of the
`detect_silence` scan is a parameter: `.error` models the scan raising
(the `except` branch returns `[]`), `.ok []` models no silence found
(the early `return []`), `.ok ranges` runs the cutting loop with
`current_start = 0` and `segment_id = 0`. -/
def splitBySilenceFast (tempDir : String) (totalMs maxD : Nat)
    (scan : Except Unit (List (Nat × Nat))) : List AudioSegment :=
  match scan with
  | .error _ => []
  | .ok [] => []
  | .ok ranges => splitSilenceLoop tempDir totalMs maxD ranges 0 0

/-- Result of `AudioProcessor.split_audio_if_needed`: the segment list plus
the number of `_save_segment` export calls performed. -/
structure SplitOutcome where
  segments : List AudioSegment
  exports : Nat
  deriving Repr, DecidableEq

/-- Mirrors `AudioProcessor.split_audio_if_needed`.  `duration <= max_duration`
returns a single whole-file segment reusing `audio_path` with no export;
`duration > max_duration * 3` goes straight to fixed-time splitting;
otherwise the silence-aware split is attempted and an empty result falls
back to fixed-time splitting.  Each emitted sub-segment is one
`_save_segment` export. -/
def split_audio_if_needed (audioPath tempDir : String) (totalMs maxD : Nat)
    (scan : Except Unit (List (Nat × Nat))) : SplitOutcome :=
  let duration : ℚ := msec totalMs
  if duration ≤ (maxD : ℚ) then
    { segments := [{ segment_id := 0, start_time := 0, end_time := duration,
                     file_path := audioPath }]
      exports := 0 }
  else if (maxD : ℚ) * 3 < duration then
    let segs := splitByTime tempDir totalMs maxD
    { segments := segs, exports := segs.length }
  else
    let ssegs := splitBySilenceFast tempDir totalMs maxD scan
    if ssegs.isEmpty then
      let segs := splitByTime tempDir totalMs maxD
      { segments := segs, exports := segs.length }
    else
      { segments := ssegs, exports := ssegs.length }

/-- Specification property: consecutive segments are gapless,
`segment[i].end_time = segment[i+1].start_time`. -/
def Gapless (segs : List AudioSegment) : Prop :=
  ∀ i, i + 1 < segs.length →
    (segs.getD i default).end_time = (segs.getD (i + 1) default).start_time

/-- Specification property: consecutive segments are ordered in time, a gap
(the excised silence) being allowed: `segment[i].end_time ≤ segment[i+1].start_time`. -/
def TimeOrdered (segs : List AudioSegment) : Prop :=
  ∀ i, i + 1 < segs.length →
    (segs.getD i default).end_time ≤ (segs.getD (i + 1) default).start_time

/-- Specification property: segment ids are the contiguous 0-based sequence
matching list order. -/
def IdsContiguous (segs : List AudioSegment) : Prop :=
  segs.map AudioSegment.segment_id = List.range segs.length

lemma ceil_div_bounds (t s : Nat) (ht : 0 < t) (hs : 0 < s) :
    0 < (t + s - 1) / s ∧ t ≤ ((t + s - 1) / s) * s ∧ ((t + s - 1) / s - 1) * s < t := by
  have hn : 0 < (t + s - 1) / s := Nat.div_pos (by omega) hs
  obtain ⟨n, hndef⟩ : ∃ n, (t + s - 1) / s = n := ⟨_, rfl⟩
  rw [hndef] at hn ⊢
  have hdm : s * n + (t + s - 1) % s = t + s - 1 := by
    rw [← hndef]
    exact Nat.div_add_mod _ _
  have hmod : (t + s - 1) % s < s := Nat.mod_lt _ hs
  rw [Nat.mul_comm s n] at hdm
  have hmul : (n - 1) * s + s = n * s := by
    obtain ⟨m, rfl⟩ : ∃ m, n = m + 1 := ⟨n - 1, by omega⟩
    simp [Nat.succ_mul]
  refine ⟨hn, ?_, ?_⟩ <;> omega

lemma splitByTime_length (tempDir : String) (t D : Nat) :
    (splitByTime tempDir t D).length = (t + D * 1000 - 1) / (D * 1000) := by
  simp [splitByTime]

lemma splitByTime_getD (tempDir : String) (t D i : Nat)
    (h : i < (t + D * 1000 - 1) / (D * 1000)) :
    (splitByTime tempDir t D).getD i default =
      { segment_id := i
        start_time := msec (i * (D * 1000))
        end_time := msec (min ((i + 1) * (D * 1000)) t)
        file_path := segPath tempDir i } := by
  have hlen : i < (splitByTime tempDir t D).length := by
    rwa [splitByTime_length]
  rw [List.getD_eq_getElem _ _ hlen]
  simp [splitByTime]

lemma splitByTime_spec (tempDir : String) (t D : Nat) (ht : 0 < t) (hD : 0 < D) :
    splitByTime tempDir t D ≠ [] ∧
    ((splitByTime tempDir t D).getD 0 default).start_time = 0 ∧
    ((splitByTime tempDir t D).getD ((splitByTime tempDir t D).length - 1)
        default).end_time = msec t ∧
    Gapless (splitByTime tempDir t D) ∧
    IdsContiguous (splitByTime tempDir t D) := by
  have hs : 0 < D * 1000 := by positivity
  obtain ⟨hn, hub, hlb⟩ := ceil_div_bounds t (D * 1000) ht hs
  have hlen := splitByTime_length tempDir t D
  refine ⟨?_, ?_, ?_, ?_, ?_⟩
  · intro hnil
    rw [hnil] at hlen
    simp at hlen
    omega
  · rw [splitByTime_getD tempDir t D 0 hn]
    simp [msec]
  · rw [hlen, splitByTime_getD tempDir t D _ (by omega)]
    have hmin : min (((t + D * 1000 - 1) / (D * 1000) - 1 + 1) * (D * 1000)) t = t := by
      rw [Nat.sub_add_cancel hn]
      exact Nat.min_eq_right hub
    simp [hmin]
  · intro i hi
    rw [hlen] at hi
    rw [splitByTime_getD tempDir t D i (by omega),
        splitByTime_getD tempDir t D (i + 1) (by omega)]
    have hle : (i + 1) * (D * 1000) ≤ ((t + D * 1000 - 1) / (D * 1000) - 1) * (D * 1000) :=
      Nat.mul_le_mul_right _ (by omega)
    have hmin : min ((i + 1) * (D * 1000)) t = (i + 1) * (D * 1000) :=
      Nat.min_eq_left (by omega)
    simp [hmin]
  · unfold IdsContiguous
    apply List.ext_getElem
    · simp [splitByTime]
    · intro i h1 h2
      simp [splitByTime]

lemma msec_le_msec {a b : Nat} (h : a ≤ b) : msec a ≤ msec b := by
  unfold msec
  exact (div_le_div_iff_of_pos_right (by norm_num)).mpr (by exact_mod_cast h)

lemma msec_zero : msec 0 = 0 := by simp [msec]

lemma silenceLoop_head_start (tempDir : String) (t D : Nat) :
    ∀ (ranges : List (Nat × Nat)) (cur sid : Nat) (x : AudioSegment),
      (splitSilenceLoop tempDir t D ranges cur sid).head? = some x →
      x.start_time = msec cur := by
  intro ranges
  induction ranges with
  | nil =>
    intro cur sid x hx
    by_cases hc : cur < t
    · simp [splitSilenceLoop, hc] at hx
      rw [← hx]
    · simp [splitSilenceLoop, hc] at hx
  | cons p rest ih =>
    intro cur sid x hx
    obtain ⟨ss, se⟩ := p
    by_cases hcut : (D : ℚ) ≤ ((ss : ℚ) - (cur : ℚ)) / 1000
    · simp [splitSilenceLoop, hcut] at hx
      rw [← hx]
    · simp only [splitSilenceLoop, if_neg hcut] at hx
      exact ih cur sid x hx

lemma silenceLoop_ordered (tempDir : String) (t D : Nat) :
    ∀ (ranges : List (Nat × Nat)), (∀ p ∈ ranges, p.1 ≤ p.2) → ∀ (cur sid : Nat),
      List.Chain' (fun a b => a.end_time ≤ b.start_time)
        (splitSilenceLoop tempDir t D ranges cur sid) := by
  intro ranges
  induction ranges with
  | nil =>
    intro _ cur sid
    by_cases hc : cur < t <;> simp [splitSilenceLoop, hc]
  | cons p rest ih =>
    intro hr cur sid
    obtain ⟨ss, se⟩ := p
    have hse : ss ≤ se := hr (ss, se) (List.mem_cons_self _ _)
    have hrest : ∀ p ∈ rest, p.1 ≤ p.2 := fun q hq => hr q (List.mem_cons_of_mem _ hq)
    by_cases hcut : (D : ℚ) ≤ ((ss : ℚ) - (cur : ℚ)) / 1000
    · simp only [splitSilenceLoop, if_pos hcut]
      refine List.chain'_cons'.mpr ⟨?_, ih hrest se (sid + 1)⟩
      intro y hy
      have hy' : y.start_time = msec se :=
        silenceLoop_head_start tempDir t D rest se (sid + 1) y (Option.mem_def.mp hy)
      rw [hy']
      exact msec_le_msec hse
    · simp only [splitSilenceLoop, if_neg hcut]
      exact ih hrest cur sid

lemma silenceLoop_ids (tempDir : String) (t D : Nat) :
    ∀ (ranges : List (Nat × Nat)) (cur sid : Nat),
      (splitSilenceLoop tempDir t D ranges cur sid).map AudioSegment.segment_id =
        List.range' sid (splitSilenceLoop tempDir t D ranges cur sid).length := by
  intro ranges
  induction ranges with
  | nil =>
    intro cur sid
    by_cases hc : cur < t <;> simp [splitSilenceLoop, hc, List.range']
  | cons p rest ih =>
    intro cur sid
    obtain ⟨ss, se⟩ := p
    by_cases hcut : (D : ℚ) ≤ ((ss : ℚ) - (cur : ℚ)) / 1000
    · simp only [splitSilenceLoop, if_pos hcut, List.map_cons, List.length_cons,
        List.range'_succ]
      rw [ih se (sid + 1)]
    · simp only [splitSilenceLoop, if_neg hcut]
      exact ih cur sid

lemma chain'_timeOrdered (l : List AudioSegment)
    (h : List.Chain' (fun a b => a.end_time ≤ b.start_time) l) : TimeOrdered l := by
  intro i hi
  have hg := List.chain'_iff_get.mp h i (by omega)
  rw [List.getD_eq_getElem _ _ (by omega : i < l.length),
      List.getD_eq_getElem _ _ (by omega : i + 1 < l.length)]
  simpa [List.get_eq_getElem] using hg

lemma silenceLoop_no_cut (tempDir : String) (t D : Nat) :
    ∀ (ranges : List (Nat × Nat)), (∀ p ∈ ranges, ((p.1 : ℚ)) / 1000 < (D : ℚ)) →
      splitSilenceLoop tempDir t D ranges 0 0 =
        splitSilenceLoop tempDir t D [] 0 0 := by
  intro ranges
  induction ranges with
  | nil => intro _; rfl
  | cons p rest ih =>
    intro hsmall
    obtain ⟨ss, se⟩ := p
    have hss : ((ss : ℚ)) / 1000 < (D : ℚ) := hsmall (ss, se) (List.mem_cons_self _ _)
    have hcut : ¬ (D : ℚ) ≤ ((ss : ℚ) - ((0 : Nat) : ℚ)) / 1000 := by
      push_neg
      simpa using hss
    simp only [splitSilenceLoop, if_neg hcut]
    exact ih fun q hq => hsmall q (List.mem_cons_of_mem _ hq)

/-- C7: for total duration `d ≤ D` the split returns exactly one segment with
index 0, start 0 and end `d`, whose file path is the original source path, and
performs no export. -/
theorem split_short_audio_single_segment (audioPath tempDir : String) (t D : Nat)
    (scan : Except Unit (List (Nat × Nat))) (h : msec t ≤ (D : ℚ)) :
    split_audio_if_needed audioPath tempDir t D scan =
      { segments := [{ segment_id := 0, start_time := 0, end_time := msec t,
                       file_path := audioPath }],
        exports := 0 } := by
  unfold split_audio_if_needed
  simp [h]

theorem split_short_audio_single_segment_witness :
    msec 100000 ≤ (1800 : ℚ) ∧
    split_audio_if_needed "a.mp3" "t/" 100000 1800 (.ok []) =
      { segments := [{ segment_id := 0, start_time := 0, end_time := msec 100000,
                       file_path := "a.mp3" }],
        exports := 0 } :=
  ⟨by norm_num [msec],
   split_short_audio_single_segment "a.mp3" "t/" 100000 1800 (.ok [])
     (by norm_num [msec])⟩

/-- C6: when silence detection yields no candidate intervals, or the silence
scan raises, the segment list returned by `split_audio_if_needed` equals the
fixed-interval split of the same input. -/
theorem split_fallback_eq_fixed (audioPath tempDir : String) (t D : Nat)
    (scan : Except Unit (List (Nat × Nat)))
    (hd : ¬ msec t ≤ (D : ℚ))
    (hscan : scan = .error () ∨ scan = .ok []) :
    (split_audio_if_needed audioPath tempDir t D scan).segments =
      splitByTime tempDir t D := by
  have hempty : splitBySilenceFast tempDir t D scan = [] := by
    rcases hscan with h | h <;> subst h <;> rfl
  unfold split_audio_if_needed
  simp only [if_neg hd, hempty, List.isEmpty_nil, if_true]
  split <;> rfl

theorem split_fallback_eq_fixed_witness :
    ¬ msec 2000000 ≤ (1800 : ℚ) ∧
    (split_audio_if_needed "a.mp3" "t/" 2000000 1800 (.ok [])).segments =
      splitByTime "t/" 2000000 1800 :=
  ⟨by norm_num [msec],
   split_fallback_eq_fixed "a.mp3" "t/" 2000000 1800 (.ok [])
     (by norm_num [msec]) (Or.inr rfl)⟩

/-- C5: input duration 2000 s, `D` = 1800 s, one silence interval at
[1800000 ms, 1801000 ms]: the silence-aware split cuts at that interval,
resumes from its end, and emits a trailing remainder — exactly the two
segments [0, 1800] and [1801, 2000] in index order. -/
theorem silence_cut_example :
    split_audio_if_needed "a.mp3" "t/" 2000000 1800 (.ok [(1800000, 1801000)]) =
      { segments := [
          { segment_id := 0, start_time := 0, end_time := 1800,
            file_path := segPath "t/" 0 },
          { segment_id := 1, start_time := 1801, end_time := 2000,
            file_path := segPath "t/" 1 }],
        exports := 2 } := by
  norm_num [split_audio_if_needed, splitBySilenceFast, splitSilenceLoop, msec]

/-- C9: silence ranges found but none whose preceding span reaches `D`:
the silence-aware splitter emits the single whole-file segment (longer than
`D`), the returned list is non-empty, and the caller keeps it — no fixed
fallback. -/
theorem silence_no_cut_single_oversized (audioPath tempDir : String)
    (t D : Nat) (ranges : List (Nat × Nat))
    (h0 : 0 < t)
    (hd : ¬ msec t ≤ (D : ℚ))
    (h3 : ¬ (D : ℚ) * 3 < msec t)
    (hne : ranges ≠ [])
    (hsmall : ∀ p ∈ ranges, ((p.1 : ℚ)) / 1000 < (D : ℚ)) :
    (split_audio_if_needed audioPath tempDir t D (.ok ranges)).segments =
      [{ segment_id := 0, start_time := 0, end_time := msec t,
         file_path := segPath tempDir 0 }] ∧
    (D : ℚ) < msec t := by
  have hloop : splitSilenceLoop tempDir t D ranges 0 0 =
      [{ segment_id := 0, start_time := 0, end_time := msec t,
         file_path := segPath tempDir 0 }] := by
    rw [silenceLoop_no_cut tempDir t D ranges hsmall]
    simp [splitSilenceLoop, h0, msec_zero]
  have hfast : splitBySilenceFast tempDir t D (.ok ranges) =
      [{ segment_id := 0, start_time := 0, end_time := msec t,
         file_path := segPath tempDir 0 }] := by
    obtain ⟨p, rest, rfl⟩ := List.exists_cons_of_ne_nil hne
    rw [← hloop]
    rfl
  constructor
  · unfold split_audio_if_needed
    simp [if_neg hd, if_neg h3, hfast]
  · exact lt_of_not_le hd

theorem silence_no_cut_single_oversized_witness :
    (split_audio_if_needed "a.mp3" "t/" 2000000 1800 (.ok [(500000, 503000)])).segments =
      [{ segment_id := 0, start_time := 0, end_time := msec 2000000,
         file_path := segPath "t/" 0 }] ∧
    (1800 : ℚ) < msec 2000000 :=
  silence_no_cut_single_oversized "a.mp3" "t/" 2000000 1800 [(500000, 503000)]
    (by norm_num)
    (by norm_num [msec])
    (by norm_num [msec])
    (by simp)
    (by
      intro p hp
      rw [List.mem_singleton] at hp
      subst hp
      norm_num)

/-- C1 (amended): the fixed-interval split is contiguous and gapless — first
start 0, `segment[i].end = segment[i+1].start`, last end `d` — with contiguous
0-based ids; the silence-aware split satisfies the weaker
`segment[i].end ≤ segment[i+1].start` (the excised silence interval may leave
a gap), with first start 0 and contiguous 0-based ids. -/
theorem split_paths_structure (tempDir : String) (t D : Nat)
    (ranges : List (Nat × Nat))
    (h0 : 0 < t) (hD : 0 < D) (hr : ∀ p ∈ ranges, p.1 ≤ p.2) :
    (splitByTime tempDir t D ≠ [] ∧
      ((splitByTime tempDir t D).getD 0 default).start_time = 0 ∧
      ((splitByTime tempDir t D).getD ((splitByTime tempDir t D).length - 1)
          default).end_time = msec t ∧
      Gapless (splitByTime tempDir t D) ∧
      IdsContiguous (splitByTime tempDir t D)) ∧
    (TimeOrdered (splitBySilenceFast tempDir t D (.ok ranges)) ∧
      (splitBySilenceFast tempDir t D (.ok ranges) ≠ [] →
        ((splitBySilenceFast tempDir t D (.ok ranges)).getD 0
            default).start_time = 0) ∧
      IdsContiguous (splitBySilenceFast tempDir t D (.ok ranges))) := by
  refine ⟨splitByTime_spec tempDir t D h0 hD, ?_, ?_, ?_⟩
  · cases ranges with
    | nil =>
      intro i hi
      simp [splitBySilenceFast] at hi
    | cons p rest =>
      exact chain'_timeOrdered _ (silenceLoop_ordered tempDir t D (p :: rest) hr 0 0)
  · intro hne
    cases ranges with
    | nil => simp [splitBySilenceFast] at hne
    | cons p rest =>
      have hS : splitBySilenceFast tempDir t D (.ok (p :: rest)) =
          splitSilenceLoop tempDir t D (p :: rest) 0 0 := rfl
      rw [hS] at hne ⊢
      cases hC : splitSilenceLoop tempDir t D (p :: rest) 0 0 with
      | nil => exact absurd hC hne
      | cons x xs =>
        have hx : (splitSilenceLoop tempDir t D (p :: rest) 0 0).head? = some x := by
          rw [hC]
          rfl
        have := silenceLoop_head_start tempDir t D (p :: rest) 0 0 x hx
        simpa [msec_zero] using this
  · cases ranges with
    | nil => simp [splitBySilenceFast, IdsContiguous]
    | cons p rest =>
      unfold IdsContiguous
      have hS : splitBySilenceFast tempDir t D (.ok (p :: rest)) =
          splitSilenceLoop tempDir t D (p :: rest) 0 0 := rfl
      rw [hS, List.range_eq_range']
      exact silenceLoop_ids tempDir t D (p :: rest) 0 0

theorem split_paths_structure_witness :
    splitByTime "t/" 2000000 1800 ≠ [] ∧
    IdsContiguous (splitBySilenceFast "t/" 2000000 1800 (.ok [(1800000, 1801000)])) :=
  ⟨(split_paths_structure "t/" 2000000 1800 [(1800000, 1801000)]
      (by norm_num) (by norm_num) (by decide)).1.1,
   (split_paths_structure "t/" 2000000 1800 [(1800000, 1801000)]
      (by norm_num) (by norm_num) (by decide)).2.2.2⟩

/-- C1 (counterexample): for the spec's own example input — duration 2000 s
(> D = 1800 s), one silence interval [1800000 ms, 1801000 ms] — the returned
list is not gapless: segment 0 ends at 1800 but segment 1 starts at 1801. -/
theorem split_gapless_counterexample :
    ¬ msec 2000000 ≤ (1800 : ℚ) ∧
    ¬ Gapless (split_audio_if_needed "a.mp3" "t/" 2000000 1800
        (.ok [(1800000, 1801000)])).segments := by
  have hres : split_audio_if_needed "a.mp3" "t/" 2000000 1800
      (.ok [(1800000, 1801000)]) =
      { segments := [
          { segment_id := 0, start_time := 0, end_time := 1800,
            file_path := segPath "t/" 0 },
          { segment_id := 1, start_time := 1801, end_time := 2000,
            file_path := segPath "t/" 1 }],
        exports := 2 } := by
    norm_num [split_audio_if_needed, splitBySilenceFast, splitSilenceLoop, msec]
  refine ⟨by norm_num [msec], ?_⟩
  intro h
  have h0 := h 0 (by rw [hres]; norm_num)
  rw [hres] at h0
  norm_num [Gapless] at h0

/-! Retry with exponential backoff (`GeminiClient._retry_with_backoff` and
`GeminiClient._is_retryable_error`, src/transcriber/gemini.py). -/

/-- Outcome of one attempt of the wrapped operation: a success value or a
raised exception carrying its message string. -/
inductive AttemptResult where
  | ok (v : String)
  | fail (e : String)
  deriving Repr, DecidableEq

/-- Character-list anchored match: does `p` occur at the head of `s`? -/
def listStarts : List Char → List Char → Bool
  | [], _ => true
  | _ :: _, [] => false
  | a :: as, b :: bs => a == b && listStarts as bs

/-- Character-list substring search, the semantics of Python's `p in s`. -/
def subSearch (p : List Char) : List Char → Bool
  | [] => p.isEmpty
  | c :: rest => listStarts p (c :: rest) || subSearch p rest

/-- String substring test (`pattern in error_str` in Python). -/
def strContainsSub (s p : String) : Bool :=
  subSearch p.data s.data

/-- Mirrors `str.lower()` character-wise; the patterns matched are ASCII, for
which `Char.toLower` agrees with Python. -/
def toLowerStr (s : String) : String :=
  ⟨s.data.map Char.toLower⟩

/-- The transient-error patterns of `GeminiClient._is_retryable_error`. -/
def retryable_patterns : List String :=
  ["rate limit", "quota exceeded", "timeout", "connection error",
   "server error", "503", "502", "500"]

/-- Mirrors `GeminiClient._is_retryable_error`: lowercase the message and test
each pattern for substring occurrence. -/
def is_retryable_error (error : String) : Bool :=
  let error_str := toLowerStr error
  retryable_patterns.any fun pattern => strContainsSub error_str pattern

/-- Loop of `GeminiClient._retry_with_backoff`.  `attempt` is the 0-indexed
loop variable of `for attempt in range(retry_count)`, `fuel` the number of
iterations the range still holds (so `fuel + attempt = retry_count`), and
`waits` accumulates every `asyncio.sleep(wait_time)` performed so far, in
order.  A failure on the final iteration, or a non-retryable failure, is
re-raised; otherwise the loop sleeps `retry_delay * 2 ** attempt` and
continues. -/
def retryGo (att : Nat → AttemptResult) (retry_count retry_delay : Nat) :
    Nat → Nat → List Nat → Except String String × List Nat
  | 0, _, waits => (.error "リトライ回数を超過しました", waits)
  | fuel + 1, attempt, waits =>
    match att attempt with
    | .ok v => (.ok v, waits)
    | .fail e =>
      if attempt = retry_count - 1 then (.error e, waits)
      else if is_retryable_error e then
        retryGo att retry_count retry_delay fuel (attempt + 1)
          (waits ++ [retry_delay * 2 ^ attempt])
      else (.error e, waits)

/-- Mirrors `GeminiClient._retry_with_backoff`: run the loop from attempt 0
with an empty wait log.  Returns the operation's outcome together with the
ordered list of backoff waits performed (in seconds). -/
def retry_with_backoff (retry_count retry_delay : Nat)
    (att : Nat → AttemptResult) : Except String String × List Nat :=
  retryGo att retry_count retry_delay retry_count 0 []

lemma retryGo_ok_step (att : Nat → AttemptResult) (rc rd fuel a : Nat)
    (waits : List Nat) (v : String) (h : att a = .ok v) :
    retryGo att rc rd (fuel + 1) a waits = (.ok v, waits) := by
  simp [retryGo, h]

lemma retryGo_nonretry_step (att : Nat → AttemptResult) (rc rd fuel a : Nat)
    (waits : List Nat) (e : String) (h : att a = .fail e) (ha : a ≠ rc - 1)
    (hr : is_retryable_error e = false) :
    retryGo att rc rd (fuel + 1) a waits = (.error e, waits) := by
  simp [retryGo, h, ha, hr]

lemma retryGo_retry_step (att : Nat → AttemptResult) (rc rd fuel a : Nat)
    (waits : List Nat) (e : String) (h : att a = .fail e) (ha : a ≠ rc - 1)
    (hr : is_retryable_error e = true) :
    retryGo att rc rd (fuel + 1) a waits =
      retryGo att rc rd fuel (a + 1) (waits ++ [rd * 2 ^ a]) := by
  simp [retryGo, h, ha, hr]

lemma retryGo_skip (att : Nat → AttemptResult) (rc rd : Nat) :
    ∀ (m a fuel : Nat) (waits : List Nat), fuel + a = rc → a + m < rc →
      (∀ i, i < m → ∃ e, att (a + i) = .fail e ∧ is_retryable_error e = true) →
      retryGo att rc rd fuel a waits =
        retryGo att rc rd (fuel - m) (a + m)
          (waits ++ (List.range m).map fun j => rd * 2 ^ (a + j)) := by
  intro m
  induction m with
  | zero =>
    intro a fuel waits _ _ _
    simp
  | succ m ih =>
    intro a fuel waits hfuel hlt hfail
    obtain ⟨e, he, hre⟩ := hfail 0 (by omega)
    rw [Nat.add_zero] at he
    obtain ⟨f, rfl⟩ : ∃ f, fuel = f + 1 := ⟨fuel - 1, by omega⟩
    rw [retryGo_retry_step att rc rd f a waits e he (by omega) hre]
    rw [ih (a + 1) f (waits ++ [rd * 2 ^ a]) (by omega) (by omega)
      (fun i hi => by
        obtain ⟨e', he', hre'⟩ := hfail (i + 1) (by omega)
        exact ⟨e', by rw [show a + 1 + i = a + (i + 1) by omega]; exact he', hre'⟩)]
    have harr : (waits ++ [rd * 2 ^ a]) ++
          (List.range m).map (fun j => rd * 2 ^ (a + 1 + j)) =
        waits ++ (List.range (m + 1)).map fun j => rd * 2 ^ (a + j) := by
      rw [List.append_assoc, List.singleton_append, List.range_succ_eq_map,
        List.map_cons, List.map_map]
      congr 1
      norm_num
      intro j hj
      exact Or.inl (by omega)
    rw [harr]
    have h1 : f - m = f + 1 - (m + 1) := by omega
    have h2 : a + 1 + m = a + (m + 1) := by omega
    rw [h1, h2]

/-- C2 (amended): when attempts 1..k-1 (1-indexed) fail with transient errors
and attempt k succeeds, k ≤ retryCount, the wrapper returns the success value
of attempt k; the waits performed are
`retryDelay·2^0, retryDelay·2^1, …, retryDelay·2^(k-2)` — that is, the wait
performed after failed attempt i (1-indexed), i.e. before attempt i+1, is
`retryDelay × 2^(i-1)`, equivalently the wait computed at failed attempt k
(0-indexed) is `retryDelay × 2^k`. -/
theorem retry_transient_success (rc rd k : Nat) (att : Nat → AttemptResult)
    (v : String) (hk1 : 1 ≤ k) (hk : k ≤ rc)
    (hfail : ∀ i, i < k - 1 → ∃ e, att i = .fail e ∧ is_retryable_error e = true)
    (hok : att (k - 1) = .ok v) :
    retry_with_backoff rc rd att =
      (.ok v, (List.range (k - 1)).map fun i => rd * 2 ^ i) := by
  unfold retry_with_backoff
  rw [retryGo_skip att rc rd (k - 1) 0 rc [] (by omega) (by omega)
    (fun i hi => by simpa using hfail i hi)]
  obtain ⟨f, hf⟩ : ∃ f, rc - (k - 1) = f + 1 := ⟨rc - (k - 1) - 1, by omega⟩
  rw [hf, retryGo_ok_step att rc rd f (0 + (k - 1)) _ v (by simpa using hok)]
  simp

theorem retry_transient_success_witness :
    retry_with_backoff 5 1
      (fun i => if i < 2 then .fail "Read timeout" else .ok "text") =
      (.ok "text", [1, 2]) := by
  have h := retry_transient_success 5 1 3
    (fun i => if i < 2 then .fail "Read timeout" else .ok "text") "text"
    (by norm_num) (by norm_num)
    (fun i hi => ⟨"Read timeout", by
      have : i < 2 := by omega
      simp [this], by decide⟩)
    (by decide)
  rw [h]
  rfl

/-- C2 (counterexample): with retryDelay = 1, a "timeout" failure on attempt 1
and success on attempt 2 (so k = 2), the single backoff wait performed before
attempt 2 is 1 second, whereas the claim's formula `retryDelay × 2^(i-1)`
with i = 2 gives 2 seconds: the wait list is [1], not [2]. -/
theorem retry_wait_off_by_one :
    retry_with_backoff 5 1
        (fun i => if i = 0 then .fail "timeout" else .ok "done") =
      (.ok "done", [1]) ∧
    [(1 : Nat)] ≠ [1 * 2 ^ (2 - 1)] := by
  constructor
  · rfl
  · decide

/-- C8: on an attempt that is not the last allowed one, a failure whose
message matches no transient pattern is re-raised immediately: no backoff
wait is recorded for it and no later attempt is consumed (the outcome is the
same for every continuation of the attempt function beyond that attempt). -/
theorem retry_nonretryable_raises (rc rd a : Nat) (att : Nat → AttemptResult)
    (e : String) (ha : a < rc - 1)
    (hprev : ∀ i, i < a → ∃ e', att i = .fail e' ∧ is_retryable_error e' = true)
    (hfa : att a = .fail e)
    (hnr : is_retryable_error e = false) :
    ∀ att' : Nat → AttemptResult, (∀ i, i ≤ a → att' i = att i) →
      retry_with_backoff rc rd att' =
        (.error e, (List.range a).map fun i => rd * 2 ^ i) := by
  intro att' hagree
  unfold retry_with_backoff
  rw [retryGo_skip att' rc rd a 0 rc [] (by omega) (by omega)
    (fun i hi => by
      obtain ⟨e', he', hre'⟩ := hprev i hi
      exact ⟨e', by simpa [hagree i (by omega)] using he', hre'⟩)]
  obtain ⟨f, hf⟩ : ∃ f, rc - a = f + 1 := ⟨rc - a - 1, by omega⟩
  rw [hf, retryGo_nonretry_step att' rc rd f (0 + a) _ e
    (by simpa [hagree a (le_refl a)] using hfa) (by omega) hnr]
  simp

theorem retry_nonretryable_raises_witness :
    retry_with_backoff 5 1 (fun _ => .fail "invalid argument") =
      (.error "invalid argument", []) := by
  have h := retry_nonretryable_raises 5 1 0 (fun _ => .fail "invalid argument")
    "invalid argument" (by norm_num) (fun i hi => absurd hi (by omega))
    rfl (by decide) (fun _ => .fail "invalid argument") (fun _ _ => rfl)
  rw [h]
  rfl

/-! Concurrent transcription ordering (`process_transcription.step3_process`,
src/transcriber/main.py).  `asyncio.gather` keeps one result slot per task,
filled when that task completes; the completion order is modelled as the list
of task indices in the order the remote calls return. -/

/-- Event-loop model of `asyncio.gather` for step 3: slot `i` of the result
array is written with segment `i`'s transcript when call `i` completes,
whatever position `i` takes in the completion order. -/
def scheduleTranscriptions (transcripts : List String) (order : List Nat) :
    List (Option String) :=
  order.foldl (fun acc i => acc.set i (some (transcripts.getD i "")))
    (List.replicate transcripts.length none)

/-- Mirrors `step3_process`: a single segment is transcribed directly; for
several segments the gathered results are read out slot by slot in segment
order. -/
def step3_process (transcripts : List String) (order : List Nat) : List String :=
  if transcripts.length = 1 then transcripts
  else (scheduleTranscriptions transcripts order).map fun r => r.getD ""

/-- Mirrors `raw_text = "\n\n".join(raw_texts) if raw_texts else ""` in
`process_transcription`. -/
def raw_text_of (texts : List String) : String :=
  if texts.isEmpty then "" else String.intercalate "\n\n" texts

lemma schedule_foldl_spec (transcripts : List String) :
    ∀ (order : List Nat) (acc : List (Option String)),
      (order.foldl (fun acc i => acc.set i (some (transcripts.getD i ""))) acc).length
          = acc.length ∧
      ∀ j, (order.foldl (fun acc i => acc.set i (some (transcripts.getD i ""))) acc)[j]? =
        if j ∈ order ∧ j < acc.length then some (some (transcripts.getD j ""))
        else acc[j]? := by
  intro order
  induction order with
  | nil =>
    intro acc
    refine ⟨rfl, fun j => ?_⟩
    simp
  | cons i rest ih =>
    intro acc
    obtain ⟨ihlen, ihget⟩ := ih (acc.set i (some (transcripts.getD i "")))
    rw [List.foldl_cons]
    refine ⟨by rw [ihlen, List.length_set], fun j => ?_⟩
    rw [ihget j, List.length_set]
    by_cases hjl : j < acc.length
    · by_cases hjr : j ∈ rest
      · simp [hjr, hjl]
      · by_cases hji : j = i
        · subst hji
          simp [hjr, hjl, List.getElem?_set_self', List.getElem?_eq_getElem hjl]
        · have hne : j ∉ (i :: rest) := by simp [hji, hjr]
          simp only [hjr, false_and, if_false]
          rw [List.getElem?_set_ne (by omega)]
          simp [hne, hjl]
    · have h1 : (acc.set i (some (transcripts.getD i "")))[j]? = none :=
        List.getElem?_eq_none (by rw [List.length_set]; omega)
      have h2 : acc[j]? = none := List.getElem?_eq_none (by omega)
      rw [if_neg (fun hc => hjl hc.2), if_neg (fun hc => hjl hc.2), h1, h2]

/-- C3: the raw transcription output is the per-segment transcripts joined in
segment-index order with a blank-line separator, for every completion order
that is a permutation of the segment indices — result assignment is keyed by
segment index, not completion order. -/
theorem step3_order_independent (transcripts : List String) (order : List Nat)
    (h : order.Perm (List.range transcripts.length)) :
    step3_process transcripts order = transcripts ∧
    raw_text_of (step3_process transcripts order) = raw_text_of transcripts := by
  have hmain : step3_process transcripts order = transcripts := by
    unfold step3_process
    split
    · rfl
    · obtain ⟨hlen, hget⟩ := schedule_foldl_spec transcripts order
        (List.replicate transcripts.length none)
      apply List.ext_getElem?
      intro j
      rw [List.getElem?_map]
      unfold scheduleTranscriptions
      rw [hget j, List.length_replicate]
      by_cases hj : j < transcripts.length
      · have hmem : j ∈ order := h.mem_iff.mpr (List.mem_range.mpr hj)
        simp [hmem, hj, List.getElem?_eq_getElem hj,
          List.getD_eq_getElem transcripts "" hj]
      · have hmem : j ∉ order := fun hc =>
          hj (List.mem_range.mp (h.mem_iff.mp hc))
        have h1 : transcripts[j]? = none := List.getElem?_eq_none (by omega)
        have h2 : (List.replicate transcripts.length (none : Option String))[j]? = none :=
          List.getElem?_eq_none (by rw [List.length_replicate]; omega)
        simp [hmem, h1, h2]
  exact ⟨hmain, by rw [hmain]⟩

theorem step3_order_independent_witness :
    step3_process ["a", "b", "c"] [2, 0, 1] = ["a", "b", "c"] ∧
    raw_text_of (step3_process ["a", "b", "c"] [2, 0, 1]) =
      raw_text_of ["a", "b", "c"] :=
  step3_order_independent ["a", "b", "c"] [2, 0, 1] (by decide)

/-! Orchestrator (`process_transcription`, src/transcriber/main.py) and
`AudioProcessor.cleanup_temp_files` (src/transcriber/audio.py). -/

/-- Error taxonomy of src/transcriber/config.py. -/
inductive TErr where
  | inputValidation (msg : String)
  | processing (msg : String)
  | api (msg : String)
  deriving Repr, DecidableEq

/-- Mirrors `AudioProcessor.cleanup_temp_files`: the `shutil.rmtree` call may
fail (`rmtreeFails`), but the method catches every exception and only logs a
warning, so it never raises. -/
def cleanup_temp_files (rmtreeFails : Bool) : Except TErr Unit :=
  match (if rmtreeFails then Except.error (TErr.processing "rmtree failed")
         else Except.ok ()) with
  | .error _ => .ok ()
  | .ok _ => .ok ()

lemma cleanup_ok (b : Bool) : cleanup_temp_files b = .ok () := by
  cases b <;> rfl

/-- Result record of one orchestrator run (`config.TranscriptionResult`),
restricted to the fields the claims are about; the wall-clock fields
(`processing_time`, `created_at`) and the echoed inputs are environmental. -/
structure TranscriptionResult where
  raw_text : String
  formatted_text : String
  summary_text : String
  segments_count : Nat
  deriving Repr, DecidableEq

/-- Environment of one `process_transcription` run: the outcome of each
effectful constructor/step, supplied as data.  `initError` models
`AudioProcessor()` raising in its constructor (temp-dir creation failure);
`geminiError` models `GeminiClient()` raising (e.g. missing API key);
`step1`..`step5` are the outcomes of input processing, splitting,
transcription, formatting and summarizing; `cleanupFails` tells whether the
`rmtree` inside cleanup fails. -/
structure RunEnv where
  initError : Option String := none
  geminiError : Option String := none
  step1 : Except TErr (String × ℚ) := .ok ("audio.mp3", 0)
  step2 : Except TErr (List AudioSegment) := .ok []
  step3 : Except TErr (List String) := .ok []
  step4 : Except TErr String := .ok ""
  step5 : Except TErr String := .ok ""
  cleanupFails : Bool := false

/-- Body of the `try` block of `process_transcription` up to (excluding) the
cleanup call: construct clients, then run steps 1-5 with the source's skip
conditions — step 3 only when neither flag is set, step 4 only when not
summarize-only and raw text non-empty, step 5 only when raw text non-empty. -/
def runSteps (env : RunEnv) (format_only summarize_only : Bool) :
    Except TErr TranscriptionResult :=
  match env.geminiError with
  | some m => .error (.api m)
  | none =>
    match env.step1 with
    | .error e => .error e
    | .ok _ =>
      match env.step2 with
      | .error e => .error e
      | .ok segments =>
        match (if !format_only && !summarize_only then env.step3
               else .ok []) with
        | .error e => .error e
        | .ok raw_texts =>
          let raw_text := raw_text_of raw_texts
          match (if !summarize_only && !(raw_text == "") then env.step4
                 else .ok "") with
          | .error e => .error e
          | .ok formatted_text =>
            match (if !(raw_text == "") then env.step5 else .ok "") with
            | .error e => .error e
            | .ok summary_text =>
              .ok { raw_text := raw_text, formatted_text := formatted_text,
                    summary_text := summary_text,
                    segments_count := segments.length }

/-- Mirrors `process_transcription`'s control flow around the body: on
success, cleanup runs once before returning; if the body raises after
`AudioProcessor()` was bound, the `except` handler invokes cleanup inside its
own `try/except: pass` and re-raises the original error; if `AudioProcessor()`
itself raised, the handler's `audio_processor.cleanup_temp_files()` hits an
unbound name, which the bare `except` swallows — cleanup is never entered.
The second component counts invocations of `cleanup_temp_files`. -/
def process_transcription (env : RunEnv)
    (format_only summarize_only : Bool) :
    Except TErr TranscriptionResult × Nat :=
  match env.initError with
  | some m => (.error (.processing m), 0)
  | none =>
    match runSteps env format_only summarize_only,
        cleanup_temp_files env.cleanupFails with
    | .ok r, .ok _ => (.ok r, 1)
    | .ok _, .error e => (.error e, 2)
    | .error e, _ => (.error e, 1)

/-- C4 (amended): on every exit path reached after `AudioProcessor()` was
successfully constructed — success, validation failure, processing failure,
API failure, including the Transcribe step raising — cleanup is invoked
exactly once, and a failure inside cleanup never changes what the caller
observes.  (If construction itself fails, cleanup is not invoked; see the
counterexample.) -/
theorem cleanup_exactly_once_after_init (env : RunEnv)
    (format_only summarize_only : Bool) (b : Bool)
    (h : env.initError = none) :
    (process_transcription env format_only summarize_only).2 = 1 ∧
    (process_transcription { env with cleanupFails := b }
        format_only summarize_only).1 =
      (process_transcription env format_only summarize_only).1 := by
  obtain ⟨ie, ge, s1, s2, s3, s4, s5, cf⟩ := env
  simp only at h
  subst h
  have hsteps : runSteps
      { initError := none, geminiError := ge, step1 := s1, step2 := s2,
        step3 := s3, step4 := s4, step5 := s5, cleanupFails := b }
      format_only summarize_only =
    runSteps
      { initError := none, geminiError := ge, step1 := s1, step2 := s2,
        step3 := s3, step4 := s4, step5 := s5, cleanupFails := cf }
      format_only summarize_only := rfl
  constructor
  · simp only [process_transcription]
    rw [cleanup_ok]
    cases hr : runSteps
        { initError := none, geminiError := ge, step1 := s1, step2 := s2,
          step3 := s3, step4 := s4, step5 := s5, cleanupFails := cf }
        format_only summarize_only <;> simp [hr]
  · simp only [process_transcription]
    rw [cleanup_ok, cleanup_ok, hsteps]

theorem cleanup_exactly_once_after_init_witness :
    (process_transcription { step3 := .error (.api "transcribe failed") }
        false false).2 = 1 ∧
    (process_transcription
        { step3 := .error (.api "transcribe failed"), cleanupFails := true }
        false false).1 =
      (process_transcription { step3 := .error (.api "transcribe failed") }
        false false).1 :=
  cleanup_exactly_once_after_init
    { step3 := .error (.api "transcribe failed") } false false true rfl

/-- C4 (counterexample): when `AudioProcessor()` itself raises — a processing
failure, hence an exit path of the run — the handler's cleanup call fails on
the unbound local and is swallowed: `cleanup_temp_files` is invoked zero
times, not exactly once. -/
theorem cleanup_skipped_on_init_failure :
    process_transcription { initError := some "temp dir creation failed" }
        false false =
      (.error (.processing "temp dir creation failed"), 0) ∧
    (0 : Nat) ≠ 1 :=
  ⟨rfl, by decide⟩

/-- C10: with the format-only or the summarize-only flag set, the
transcription step is skipped, raw text is empty, and therefore the Format
and Summarize steps are skipped too: a successful run returns a result whose
raw, formatted and summary texts are all empty. -/
theorem skip_flags_empty_result (env : RunEnv)
    (format_only summarize_only : Bool) (p : String × ℚ)
    (segs : List AudioSegment)
    (hflag : format_only = true ∨ summarize_only = true)
    (hinit : env.initError = none) (hg : env.geminiError = none)
    (h1 : env.step1 = .ok p) (h2 : env.step2 = .ok segs) :
    (process_transcription env format_only summarize_only).1 =
      .ok { raw_text := "", formatted_text := "", summary_text := "",
            segments_count := segs.length } := by
  have hsel : (!format_only && !summarize_only) = false := by
    rcases hflag with h | h <;> subst h <;> simp
  have hsteps : runSteps env format_only summarize_only =
      .ok { raw_text := "", formatted_text := "", summary_text := "",
            segments_count := segs.length } := by
    unfold runSteps
    rw [hg, h1, h2, hsel]
    cases summarize_only <;> rfl
  unfold process_transcription
  rw [hinit, hsteps, cleanup_ok]

theorem skip_flags_empty_result_witness :
    (process_transcription
        { step2 := .ok [{ segment_id := 0, start_time := 0, end_time := 100,
                          file_path := "a.mp3" }],
          step3 := .ok ["would-be transcript"] }
        true false).1 =
      .ok { raw_text := "", formatted_text := "", summary_text := "",
            segments_count := 1 } :=
  skip_flags_empty_result
    { step2 := .ok [{ segment_id := 0, start_time := 0, end_time := 100,
                      file_path := "a.mp3" }],
      step3 := .ok ["would-be transcript"] }
    true false ("audio.mp3", 0)
    [{ segment_id := 0, start_time := 0, end_time := 100,
       file_path := "a.mp3" }]
    (Or.inl rfl) rfl rfl rfl rfl

end Transcriber
